import Mathlib

/-!
Verification of the doppelmark duplicate-marking engine (grailbio/doppelmark)
against its natural-language specification.

The Go sources are embedded shallowly:
- machine integers (`int`, `int64`) become `Int`; `uint64` conversions use an
  explicit `% 2 ^ 64`;
- `float64` quantities that only ever hold exact ratios of integers
  (mean coverage, the percent-duplication column) are modelled as `Rat`;
- the per-ref coverage map `map[int][]int`, whose keys are `0 .. n-1` in every
  use considered here, is modelled as a `List (List Int)` indexed by refId;
- fallible functions return the error through an `Option String` component.

External collaborators (the `hts/sam` record accessors, `bam.Shard`
coordinate containment, `bamprovider.ParseFileType`) are modelled from their
documented contracts, as the specification treats them as external interfaces.
-/

namespace Doppelmark

/-! ## Per-base coverage data (highcoverage.go) -/

/-- Depth stored at position `p` of one reference's coverage array
(absent positions read as 0). -/
def covAt (cov : List Int) (p : Nat) : Int := cov.getD p 0

/-- Position `p` is a high-coverage position of the array `cov`:
it is in range and its depth strictly exceeds `maxCov`. -/
def IsHigh (maxCov : Int) (cov : List Int) (p : Nat) : Prop :=
  p < cov.length ∧ maxCov < covAt cov p

instance (maxCov : Int) (cov : List Int) : DecidablePred (IsHigh maxCov cov) := fun p => by
  unfold IsHigh; infer_instance

/-- `coverageInterval` from highcoverage.go: a high-coverage range
`[start, stop)` on reference `refId` (the Go field `end` is called `stop`
here because `end` is a Lean keyword), with its mean coverage. -/
structure coverageInterval where
  refId : Nat
  start : Nat
  stop : Nat
  meanCoverage : Rat
deriving DecidableEq

/-- The mean written by the Go code: `float64(total) / float64(len)`,
modelled exactly over `Rat`. -/
def mkMean (total : Int) (len : Nat) : Rat := (total : Rat) / (len : Rat)

/-- The condition under which the Go loop restarts a run at `pos`:
`pos == 0 || (pos > 0 && refCoverage[pos-1] <= maxCoverage)`. -/
def hcReset (maxCov : Int) (cov : List Int) (pos : Nat) : Prop :=
  pos = 0 ∨ covAt cov (pos - 1) ≤ maxCov

instance (maxCov : Int) (cov : List Int) (pos : Nat) : Decidable (hcReset maxCov cov pos) := by
  unfold hcReset; infer_instance

/-- Value of the Go local `start` after the iteration at `pos`. -/
def hcNextStart (maxCov : Int) (cov : List Int) (pos start : Nat) : Nat :=
  if maxCov < covAt cov pos ∧ hcReset maxCov cov pos then pos else start

/-- Value of the Go local `total` after the iteration at `pos`. -/
def hcNextTotal (maxCov : Int) (cov : List Int) (pos : Nat) (total : Int) : Int :=
  if maxCov < covAt cov pos then
    (if hcReset maxCov cov pos then covAt cov pos else total + covAt cov pos)
  else total

/-- Intervals appended to `highCovIntervals` during the iteration at `pos`:
a run that reaches the last position is emitted there, and a run that just
ended is emitted at the first low position after it. -/
def hcEmit (refId : Nat) (maxCov : Int) (cov : List Int) (pos start : Nat) (total : Int) :
    List coverageInterval :=
  if maxCov < covAt cov pos then
    (if pos = cov.length - 1 then
      [⟨refId, hcNextStart maxCov cov pos start, pos + 1,
        mkMean (hcNextTotal maxCov cov pos total) (pos + 1 - hcNextStart maxCov cov pos start)⟩]
    else [])
  else
    (if 0 < pos ∧ maxCov < covAt cov (pos - 1) then
      [⟨refId, start, pos, mkMean total (pos - start)⟩]
    else [])

/-- The position loop of `getHighCoverageIntervals` (highcoverage.go lines
76-109) for a single reference `refId` with coverage array `cov`, entered at
iteration `pos` with current values `start` and `total` of the Go locals. -/
def hcGo (refId : Nat) (maxCov : Int) (cov : List Int) (pos start : Nat) (total : Int) :
    List coverageInterval :=
  if _h : pos < cov.length then
    hcEmit refId maxCov cov pos start total ++
      hcGo refId maxCov cov (pos + 1) (hcNextStart maxCov cov pos start)
        (hcNextTotal maxCov cov pos total)
  else []
termination_by cov.length - pos

/-- The scan of one reference's coverage array by `getHighCoverageIntervals`. -/
def hcRef (refId : Nat) (maxCov : Int) (cov : List Int) : List coverageInterval :=
  hcGo refId maxCov cov 0 0 0

/-- `getHighCoverageIntervals` (highcoverage.go lines 71-112) restricted to
coverage maps whose keys are `0 .. n-1`, modelled as a list of per-ref
coverage arrays. -/
def getHighCoverageIntervals (coverage : List (List Int)) (maxCoverage : Int) :
    List coverageInterval :=
  (List.range coverage.length).flatMap fun refId =>
    hcRef refId maxCoverage (coverage.getD refId [])

/-! Specification-side vocabulary for claim C1. -/

/-- `[s, e)` is a maximal half-open run of positions of `cov` whose depth
strictly exceeds `maxCov`. -/
def MaxRun (maxCov : Int) (cov : List Int) (s e : Nat) : Prop :=
  s < e ∧ (∀ p, s ≤ p → p < e → IsHigh maxCov cov p) ∧
  (s = 0 ∨ ¬ IsHigh maxCov cov (s - 1)) ∧ ¬ IsHigh maxCov cov e

/-- Sum of the depths over the half-open run `[s, e)`. -/
def runTotal (cov : List Int) (s e : Nat) : Int :=
  ∑ p ∈ Finset.Ico s e, covAt cov p

/-- The interval the specification associates to a maximal run: the run's
bounds together with the mean coverage, i.e. the sum of depths over the run
divided by its length. -/
def runInterval (refId : Nat) (cov : List Int) (s e : Nat) : coverageInterval :=
  ⟨refId, s, e, mkMean (runTotal cov s e) (e - s)⟩

/-- The loop iteration at which the scan emits the run ending at `e`:
a run that ends at the array's end is emitted while visiting the last
position, every other run is emitted while visiting `e` itself. -/
def emitStep (cov : List Int) (e : Nat) : Nat :=
  if e = cov.length then e - 1 else e

/-- Strict ordering by `(refId, start)` on coverage intervals. -/
def intervalLt (a b : coverageInterval) : Prop :=
  a.refId < b.refId ∨ (a.refId = b.refId ∧ a.start < b.start)

/-! Lemmas about high positions and maximal runs. -/

lemma isHigh_iff {maxCov : Int} {cov : List Int} {p : Nat} (h : p < cov.length) :
    IsHigh maxCov cov p ↔ maxCov < covAt cov p := by
  unfold IsHigh; exact and_iff_right h

lemma not_isHigh {maxCov : Int} {cov : List Int} {p : Nat} (h : cov.length ≤ p) :
    ¬ IsHigh maxCov cov p := by
  intro hp; exact absurd hp.1 (Nat.not_lt.mpr h)

lemma hcReset_iff {maxCov : Int} {cov : List Int} {pos : Nat} (h : pos < cov.length) :
    hcReset maxCov cov pos ↔ (pos = 0 ∨ ¬ IsHigh maxCov cov (pos - 1)) := by
  unfold hcReset
  have hlt : pos - 1 < cov.length := lt_of_le_of_lt (Nat.sub_le pos 1) h
  rw [isHigh_iff hlt, not_lt]

lemma maxRun_pos_lt {maxCov : Int} {cov : List Int} {s e : Nat}
    (h : MaxRun maxCov cov s e) {p : Nat} (hs : s ≤ p) (he : p < e) : p < cov.length :=
  (h.2.1 p hs he).1

lemma maxRun_le_length {maxCov : Int} {cov : List Int} {s e : Nat}
    (h : MaxRun maxCov cov s e) : e ≤ cov.length := by
  have hse := h.1
  have h1 : e - 1 < cov.length := maxRun_pos_lt h (by omega) (by omega)
  omega

lemma emitStep_le {cov : List Int} (e : Nat) : emitStep cov e ≤ e := by
  unfold emitStep; split <;> omega

lemma emitStep_lt {maxCov : Int} {cov : List Int} {s e : Nat}
    (h : MaxRun maxCov cov s e) : emitStep cov e < cov.length := by
  have hle : e ≤ cov.length := maxRun_le_length h
  have hse := h.1
  unfold emitStep
  split <;> omega

lemma runTotal_single (cov : List Int) (pos : Nat) :
    runTotal cov pos (pos + 1) = covAt cov pos := by
  unfold runTotal
  rw [Finset.sum_Ico_succ_top (le_refl pos), Finset.Ico_self, Finset.sum_empty, zero_add]

lemma runTotal_succ_top {s pos : Nat} (h : s ≤ pos) (cov : List Int) :
    runTotal cov s (pos + 1) = runTotal cov s pos + covAt cov pos := by
  unfold runTotal
  rw [Finset.sum_Ico_succ_top h]

/-- Two maximal runs sharing a common position coincide. -/
lemma maxRun_unique {maxCov : Int} {cov : List Int} {s e s' e' : Nat}
    (h1 : MaxRun maxCov cov s e) (h2 : MaxRun maxCov cov s' e') {p : Nat}
    (hs : s ≤ p) (he : p < e) (hs' : s' ≤ p) (he' : p < e') : s = s' ∧ e = e' := by
  obtain ⟨-, hin1, hleft1, hright1⟩ := h1
  obtain ⟨-, hin2, hleft2, hright2⟩ := h2
  constructor
  · rcases Nat.lt_trichotomy s s' with hlt | heq | hgt
    · exfalso
      have : IsHigh maxCov cov (s' - 1) := hin1 (s' - 1) (by omega) (by omega)
      rcases hleft2 with h0 | hnh
      · omega
      · exact hnh this
    · exact heq
    · exfalso
      have : IsHigh maxCov cov (s - 1) := hin2 (s - 1) (by omega) (by omega)
      rcases hleft1 with h0 | hnh
      · omega
      · exact hnh this
  · rcases Nat.lt_trichotomy e e' with hlt | heq | hgt
    · exact absurd (hin2 e (by omega) (by omega)) hright1
    · exact heq
    · exact absurd (hin1 e' (by omega) (by omega)) hright2

/-- Loop invariant of the scan: whenever the previous position was high,
`start` is the true start of the run in progress and `total` is the sum of
the depths of that run seen so far. -/
def Inv (maxCov : Int) (cov : List Int) (pos start : Nat) (total : Int) : Prop :=
  (0 < pos ∧ IsHigh maxCov cov (pos - 1)) →
    (start < pos ∧ (∀ p, start ≤ p → p < pos → IsHigh maxCov cov p) ∧
     (start = 0 ∨ ¬ IsHigh maxCov cov (start - 1)) ∧ total = runTotal cov start pos)

/-- Main characterisation of the scan loop: entered at iteration `pos` with
an invariant-respecting state, it emits exactly the maximal runs whose
emission step is at least `pos`, each as its `runInterval`, with strictly
increasing `start` fields. -/
lemma hcGo_spec (refId : Nat) (maxCov : Int) (cov : List Int) :
    ∀ (fuel pos start : Nat) (total : Int), cov.length ≤ pos + fuel →
      Inv maxCov cov pos start total →
      ((∀ I, I ∈ hcGo refId maxCov cov pos start total ↔
          ∃ s e, MaxRun maxCov cov s e ∧ pos ≤ emitStep cov e ∧
            I = runInterval refId cov s e) ∧
        List.Pairwise (fun a b => a.start < b.start)
          (hcGo refId maxCov cov pos start total)) := by
  intro fuel
  induction fuel with
  | zero =>
      intro pos start total hfuel _hinv
      have hpos : ¬ pos < cov.length := by omega
      rw [hcGo, dif_neg hpos]
      refine ⟨fun I => ?_, List.Pairwise.nil⟩
      simp only [List.not_mem_nil, false_iff, not_exists]
      intro s e hc
      have := emitStep_lt hc.1
      omega
  | succ k ih =>
      intro pos start total hfuel hinv
      by_cases hpos : pos < cov.length
      · rw [hcGo, dif_pos hpos]
        by_cases hd : maxCov < covAt cov pos
        · -- the depth at pos is high
          have hHigh : IsHigh maxCov cov pos := (isHigh_iff hpos).mpr hd
          have hrunfacts : hcNextStart maxCov cov pos start < pos + 1 ∧
              (∀ p, hcNextStart maxCov cov pos start ≤ p → p < pos + 1 →
                IsHigh maxCov cov p) ∧
              (hcNextStart maxCov cov pos start = 0 ∨
                ¬ IsHigh maxCov cov (hcNextStart maxCov cov pos start - 1)) ∧
              hcNextTotal maxCov cov pos total =
                runTotal cov (hcNextStart maxCov cov pos start) (pos + 1) := by
            by_cases hres : hcReset maxCov cov pos
            · rw [hcNextStart, if_pos ⟨hd, hres⟩, hcNextTotal, if_pos hd, if_pos hres]
              refine ⟨by omega, ?_, (hcReset_iff hpos).mp hres,
                (runTotal_single cov pos).symm⟩
              intro p hp1 hp2
              have hpeq : p = pos := by omega
              rw [hpeq]; exact hHigh
            · have hnr := hres
              rw [hcReset] at hnr
              push_neg at hnr
              have hmid : 0 < pos ∧ IsHigh maxCov cov (pos - 1) :=
                ⟨Nat.pos_of_ne_zero hnr.1, (isHigh_iff (by omega)).mpr hnr.2⟩
              obtain ⟨h1, h2, h3, h4⟩ := hinv hmid
              rw [hcNextStart, if_neg (fun hc => hres hc.2), hcNextTotal, if_pos hd,
                if_neg hres]
              refine ⟨by omega, ?_, h3, ?_⟩
              · intro p hp1 hp2
                rcases Nat.lt_or_ge p pos with hlt | hge
                · exact h2 p hp1 hlt
                · have hpeq : p = pos := by omega
                  rw [hpeq]; exact hHigh
              · rw [h4, runTotal_succ_top (le_of_lt h1)]
          have hinv1 : Inv maxCov cov (pos + 1) (hcNextStart maxCov cov pos start)
              (hcNextTotal maxCov cov pos total) := fun _ =>
            ⟨hrunfacts.1, hrunfacts.2.1, hrunfacts.2.2.1, hrunfacts.2.2.2⟩
          have htail := ih (pos + 1) (hcNextStart maxCov cov pos start)
            (hcNextTotal maxCov cov pos total) (by omega) hinv1
          by_cases hlast : pos = cov.length - 1
          · -- last position of the array: the open run is emitted here
            have hplen : pos + 1 = cov.length := by omega
            have hrun : MaxRun maxCov cov (hcNextStart maxCov cov pos start) (pos + 1) :=
              ⟨hrunfacts.1, hrunfacts.2.1, hrunfacts.2.2.1, not_isHigh (by omega)⟩
            have htailnil : hcGo refId maxCov cov (pos + 1)
                (hcNextStart maxCov cov pos start) (hcNextTotal maxCov cov pos total) = [] := by
              rw [hcGo, dif_neg (by omega)]
            rw [hcEmit, if_pos hd, if_pos hlast, htailnil, List.append_nil]
            constructor
            · intro I
              rw [List.mem_singleton]
              constructor
              · intro hI
                refine ⟨hcNextStart maxCov cov pos start, pos + 1, hrun, ?_, ?_⟩
                · rw [emitStep, if_pos hplen]
                  omega
                · rw [hI, runInterval, hrunfacts.2.2.2]
              · rintro ⟨s, e, hr, hstep, hIeq⟩
                have hstep_lt := emitStep_lt hr
                have hstep_eq : emitStep cov e = pos := by omega
                by_cases he : e = cov.length
                · have he' : e = pos + 1 := by omega
                  rw [he'] at hr
                  have hse := hr.1
                  obtain ⟨hs_eq, -⟩ := maxRun_unique hr hrun (p := pos)
                    (by omega) (by omega) (by omega) (by omega)
                  rw [hIeq, he', hs_eq, runInterval, hrunfacts.2.2.2]
                · exfalso
                  rw [emitStep, if_neg he] at hstep_eq
                  rw [hstep_eq] at hr
                  exact hr.2.2.2 hHigh
            · rw [List.pairwise_cons]
              exact ⟨fun b hb => absurd hb (List.not_mem_nil b), List.Pairwise.nil⟩
          · -- not the last position: nothing is emitted at a high position
            rw [hcEmit, if_pos hd, if_neg hlast, List.nil_append]
            refine ⟨fun I => ?_, htail.2⟩
            rw [htail.1 I]
            constructor
            · rintro ⟨s, e, hr, hstep, hIeq⟩
              exact ⟨s, e, hr, by omega, hIeq⟩
            · rintro ⟨s, e, hr, hstep, hIeq⟩
              refine ⟨s, e, hr, ?_, hIeq⟩
              rcases Nat.eq_or_lt_of_le hstep with heq | hlt
              · exfalso
                by_cases he : e = cov.length
                · rw [emitStep, if_pos he] at heq
                  have := maxRun_le_length hr
                  have hse := hr.1
                  omega
                · rw [emitStep, if_neg he] at heq
                  rw [← heq] at hr
                  exact hr.2.2.2 hHigh
              · omega
        · -- the depth at pos is not high
          have hnHigh : ¬ IsHigh maxCov cov pos := fun hh => hd ((isHigh_iff hpos).mp hh)
          have hns : hcNextStart maxCov cov pos start = start := by
            rw [hcNextStart, if_neg (fun hc => hd hc.1)]
          have hnt : hcNextTotal maxCov cov pos total = total := by
            rw [hcNextTotal, if_neg hd]
          have hinv1 : Inv maxCov cov (pos + 1) start total := by
            intro hmid
            exact absurd (by simpa using hmid.2) hnHigh
          have htail := ih (pos + 1) start total (by omega) hinv1
          rw [hns, hnt]
          by_cases hemit : 0 < pos ∧ maxCov < covAt cov (pos - 1)
          · -- a run just ended: emit it
            have hmid : 0 < pos ∧ IsHigh maxCov cov (pos - 1) :=
              ⟨hemit.1, (isHigh_iff (by omega)).mpr hemit.2⟩
            obtain ⟨h1, h2, h3, h4⟩ := hinv hmid
            have hrun : MaxRun maxCov cov start pos := ⟨h1, h2, h3, hnHigh⟩
            rw [hcEmit, if_neg hd, if_pos hemit, List.singleton_append]
            constructor
            · intro I
              rw [List.mem_cons, htail.1 I]
              constructor
              · rintro (hI | ⟨s, e, hr, hstep, hIeq⟩)
                · refine ⟨start, pos, hrun, ?_, ?_⟩
                  · rw [emitStep, if_neg (by omega)]
                  · rw [hI, runInterval, h4]
                · exact ⟨s, e, hr, by omega, hIeq⟩
              · rintro ⟨s, e, hr, hstep, hIeq⟩
                rcases Nat.eq_or_lt_of_le hstep with heq | hlt
                · left
                  by_cases he : e = cov.length
                  · exfalso
                    rw [emitStep, if_pos he] at heq
                    have hse := hr.1
                    refine hnHigh (hr.2.1 pos (by omega) (by omega))
                  · rw [emitStep, if_neg he] at heq
                    rw [← heq] at hr
                    obtain ⟨hs_eq, -⟩ := maxRun_unique hr hrun (p := pos - 1)
                      (by have := hr.1; omega) (by have := hr.1; omega)
                      (by omega) (by omega)
                    rw [hIeq, ← heq, hs_eq, runInterval, h4]
                · right
                  exact ⟨s, e, hr, by omega, hIeq⟩
            · rw [List.pairwise_cons]
              refine ⟨fun b hb => ?_, htail.2⟩
              obtain ⟨s, e, hr, hstep, hbeq⟩ := (htail.1 b).mp hb
              have hste := @emitStep_le cov e
              have hsb : pos < s := by
                by_contra hc
                push_neg at hc
                exact hnHigh (hr.2.1 pos hc (by omega))
              have hbstart : b.start = s := by rw [hbeq]; rfl
              rw [hbstart]
              show start < s
              omega
          · -- no run in progress: nothing is emitted
            rw [hcEmit, if_neg hd, if_neg hemit, List.nil_append]
            refine ⟨fun I => ?_, htail.2⟩
            rw [htail.1 I]
            constructor
            · rintro ⟨s, e, hr, hstep, hIeq⟩
              exact ⟨s, e, hr, by omega, hIeq⟩
            · rintro ⟨s, e, hr, hstep, hIeq⟩
              refine ⟨s, e, hr, ?_, hIeq⟩
              rcases Nat.eq_or_lt_of_le hstep with heq | hlt
              · exfalso
                by_cases he : e = cov.length
                · rw [emitStep, if_pos he] at heq
                  have hse := hr.1
                  exact hnHigh (hr.2.1 pos (by omega) (by omega))
                · rw [emitStep, if_neg he] at heq
                  have hse := hr.1
                  have hint : IsHigh maxCov cov (pos - 1) :=
                    hr.2.1 (pos - 1) (by omega) (by omega)
                  rw [not_and_or] at hemit
                  rcases hemit with hp0 | hnd
                  · omega
                  · have hlt2 : pos - 1 < cov.length := by omega
                    exact (hnd (by exact (isHigh_iff hlt2).mp hint)).elim
              · omega
      · rw [hcGo, dif_neg hpos]
        refine ⟨fun I => ?_, List.Pairwise.nil⟩
        simp only [List.not_mem_nil, false_iff, not_exists]
        intro s e hc
        have := emitStep_lt hc.1
        omega

/-- The scan of one full reference emits exactly its maximal runs. -/
lemma hcRef_spec (refId : Nat) (maxCov : Int) (cov : List Int) :
    (∀ I, I ∈ hcRef refId maxCov cov ↔
      ∃ s e, MaxRun maxCov cov s e ∧ I = runInterval refId cov s e) ∧
    List.Pairwise (fun a b => a.start < b.start) (hcRef refId maxCov cov) := by
  have h := hcGo_spec refId maxCov cov cov.length 0 0 0 (by omega)
    (fun hc => absurd hc.1 (lt_irrefl 0))
  rw [hcRef]
  refine ⟨fun I => ?_, h.2⟩
  rw [h.1 I]
  constructor
  · rintro ⟨s, e, hr, -, hIeq⟩
    exact ⟨s, e, hr, hIeq⟩
  · rintro ⟨s, e, hr, hIeq⟩
    exact ⟨s, e, hr, Nat.zero_le _, hIeq⟩

lemma hcRef_refId {refId : Nat} {maxCov : Int} {cov : List Int} {I : coverageInterval}
    (h : I ∈ hcRef refId maxCov cov) : I.refId = refId := by
  obtain ⟨s, e, -, hIeq⟩ := ((hcRef_spec refId maxCov cov).1 I).mp h
  rw [hIeq]; rfl

lemma flat_pairwise (maxCov : Int) (coverage : List (List Int)) :
    ∀ n, List.Pairwise intervalLt
      ((List.range n).flatMap fun refId => hcRef refId maxCov (coverage.getD refId [])) := by
  intro n
  induction n with
  | zero => simp
  | succ m ihm =>
      rw [List.range_succ, List.flatMap_append, List.pairwise_append]
      refine ⟨ihm, ?_, ?_⟩
      · simp only [List.flatMap_cons, List.flatMap_nil, List.append_nil]
        refine List.Pairwise.imp_of_mem ?_ (hcRef_spec m maxCov (coverage.getD m [])).2
        intro a b ha hb hab
        exact Or.inr ⟨by rw [hcRef_refId ha, hcRef_refId hb], hab⟩
      · intro a ha b hb
        simp only [List.flatMap_cons, List.flatMap_nil, List.append_nil] at hb
        rw [List.mem_flatMap] at ha
        obtain ⟨r0, hr0, har⟩ := ha
        rw [List.mem_range] at hr0
        refine Or.inl ?_
        rw [hcRef_refId har, hcRef_refId hb]
        exact hr0

/-- C1: for a coverage map whose keys are `0 .. n-1` and any `maxCoverage`,
`getHighCoverageIntervals` returns exactly the maximal half-open runs
`[start, stop)` of positions whose depth strictly exceeds `maxCoverage`,
each annotated with its mean coverage (the sum of the depths over the run
divided by the run's length, the division being exact in `Rat`), and the
returned list is strictly ordered by `(refId, start)`. -/
theorem C1_getHighCoverageIntervals_exact_maximal_runs
    (coverage : List (List Int)) (maxCoverage : Int) :
    (∀ I, I ∈ getHighCoverageIntervals coverage maxCoverage ↔
      ∃ refId s e, refId < coverage.length ∧
        MaxRun maxCoverage (coverage.getD refId []) s e ∧
        I = runInterval refId (coverage.getD refId []) s e) ∧
    List.Pairwise intervalLt (getHighCoverageIntervals coverage maxCoverage) := by
  refine ⟨fun I => ?_, flat_pairwise maxCoverage coverage coverage.length⟩
  rw [getHighCoverageIntervals, List.mem_flatMap]
  constructor
  · rintro ⟨refId, hrange, hmem⟩
    rw [List.mem_range] at hrange
    obtain ⟨s, e, hr, hIeq⟩ :=
      ((hcRef_spec refId maxCoverage (coverage.getD refId [])).1 I).mp hmem
    exact ⟨refId, s, e, hrange, hr, hIeq⟩
  · rintro ⟨refId, s, e, hrange, hr, hIeq⟩
    exact ⟨refId, List.mem_range.mpr hrange,
      ((hcRef_spec refId maxCoverage (coverage.getD refId [])).1 I).mpr ⟨s, e, hr, hIeq⟩⟩

/-! ## Metrics and the metrics writers (metrics.go) -/

/-- `Metrics`: the per-library counters reported by mark duplicates. -/
structure Metrics where
  UnpairedReads : Int
  ReadPairsExamined : Int
  SecondarySupplementary : Int
  UnmappedReads : Int
  UnpairedDups : Int
  ReadPairDups : Int
  ReadPairOpticalDups : Int
deriving DecidableEq

/-- The Go zero value of `Metrics`. -/
def Metrics.zero : Metrics := ⟨0, 0, 0, 0, 0, 0, 0⟩

/-- `Metrics.Add`: fieldwise accumulation of `other` into `m`. -/
def Metrics.add (m other : Metrics) : Metrics :=
  ⟨m.UnpairedReads + other.UnpairedReads,
   m.ReadPairsExamined + other.ReadPairsExamined,
   m.SecondarySupplementary + other.SecondarySupplementary,
   m.UnmappedReads + other.UnmappedReads,
   m.UnpairedDups + other.UnpairedDups,
   m.ReadPairDups + other.ReadPairDups,
   m.ReadPairOpticalDups + other.ReadPairOpticalDups⟩

/-- The Go conversion `uint64(x)` of an `int`, modelled as reduction modulo
`2 ^ 64` (two's-complement wraparound). -/
def toUint64 (x : Int) : Int := x % (2 ^ 64)

/-- Modelled from the spec: the outcome of `estimateLibrarySize` (§4.9), whose
source file is not among the sources under verification (only its caller and
its test are).  The spec describes a real-valued bisection solver that fails
with `MathError` on inconsistent counts or when no root exists; the metrics
writer is therefore parameterised over the solver's outcome, `Except.error`
standing for a `MathError` and `Except.ok n` for a successful estimate. -/
abbrev LibrarySizeSolver := Int → Int → Except Unit Int

/-- The values of the tab-separated columns of one metrics-file row, in the
order `Metrics.String` prints them. -/
structure MetricsRow where
  unpairedReadsCol : Int
  readPairsExaminedCol : Int
  secondarySupplementaryCol : Int
  unmappedReadsCol : Int
  unpairedDupsCol : Int
  readPairDupsCol : Int
  readPairOpticalDupsCol : Int
  percentDuplicationCol : Rat
  estimatedLibrarySizeCol : String
deriving DecidableEq

/-- The first argument `Metrics.String` passes to `estimateLibrarySize`:
`uint64((m.ReadPairsExamined / 2) - (m.ReadPairOpticalDups / 2))`. -/
def Metrics.pairsA (m : Metrics) : Int :=
  toUint64 (m.ReadPairsExamined.tdiv 2 - m.ReadPairOpticalDups.tdiv 2)

/-- The second argument `Metrics.String` passes to `estimateLibrarySize`:
`uint64((m.ReadPairsExamined / 2) - (m.ReadPairDups / 2))`. -/
def Metrics.pairsB (m : Metrics) : Int :=
  toUint64 (m.ReadPairsExamined.tdiv 2 - m.ReadPairDups.tdiv 2)

/-- `Metrics.String` (metrics.go lines 64-80): the columns of the emitted
row.  Go's `int` division `/` truncates toward zero, hence `Int.tdiv`; the
`float64` percentage is modelled exactly over `Rat`. -/
def Metrics.render (est : LibrarySizeSolver) (m : Metrics) : MetricsRow :=
  ⟨m.UnpairedReads,
   m.ReadPairsExamined.tdiv 2,
   m.SecondarySupplementary,
   m.UnmappedReads,
   m.UnpairedDups,
   m.ReadPairDups.tdiv 2,
   m.ReadPairOpticalDups.tdiv 2,
   100 * (((m.UnpairedDups + m.ReadPairDups : Int) : Rat) /
     ((m.UnpairedReads + m.ReadPairsExamined : Int) : Rat)),
   match est m.pairsA m.pairsB with
   | Except.ok librarySize => toString librarySize
   | Except.error _ => "0"⟩

/-- `MetricsCollection` (metrics.go): the global metrics state.  The
`sync.Mutex` field only guards concurrent access and carries no data, so it
is not modelled; `LibraryMetrics`, a Go map, is modelled as a function from
library names to an optional per-library `Metrics`. -/
structure MetricsCollection where
  maxAlignDist : Int
  OpticalDistance : List (List Int)
  LibraryMetrics : String → Option Metrics
  HighCoverageIntervals : List coverageInterval

/-- The resize `temp := make([]int64, n); copy(temp, row)` performed by
`AddDistance`: the row is truncated or zero-extended to length `n`. -/
def resizeRow (n : Nat) (row : List Int) : List Int :=
  row.take n ++ List.replicate (n - row.length) 0

/-- Increment of one histogram cell: `OpticalDistance[i][distance]++`. -/
def bumpCell (hist : List (List Int)) (i distance : Nat) : List (List Int) :=
  hist.set i ((hist.getD i []).set distance ((hist.getD i []).getD distance 0 + 1))

/-- The growth step of `AddDistance`: when `distance` reaches past the end
of the rows (the code checks row 0), every row is resized to
`distance + 1`. -/
def growIfNeeded (hist : List (List Int)) (distance : Nat) : List (List Int) :=
  if (hist.getD 0 []).length ≤ distance
    then hist.map (resizeRow (distance + 1)) else hist

/-- `MetricsCollection.AddDistance` (metrics.go lines 172-190) acting on the
`OpticalDistance` histogram.  `distance` is non-negative here (a negative Go
`int` distance would panic on the slice index). -/
def AddDistance (hist : List (List Int)) (bagSize : Int) (distance : Nat) : List (List Int) :=
  if bagSize ≤ 2 then bumpCell (growIfNeeded hist distance) 0 distance
  else if 3 ≤ bagSize ∧ bagSize ≤ 4 then bumpCell (growIfNeeded hist distance) 1 distance
  else if 5 ≤ bagSize ∧ bagSize ≤ 7 then bumpCell (growIfNeeded hist distance) 2 distance
  else if 8 ≤ bagSize then bumpCell (growIfNeeded hist distance) 3 distance
  else growIfNeeded hist distance

/-- The extension `if len(mc.OpticalDistance[i]) < len(other.OpticalDistance[i])`
performed by `Merge`: the receiver's row is zero-padded to the other row's
length when shorter. -/
def extendTo (a : List Int) (n : Nat) : List Int :=
  if a.length < n then a ++ List.replicate (n - a.length) 0 else a

/-- The histogram-row merge performed by `MetricsCollection.Merge`: extend
the receiver's row with zeroes when the other row is longer, then add the
other row's entries elementwise over its indices. -/
def mergeRow (a b : List Int) : List Int :=
  List.zipWith (fun x y => x + y) (extendTo a b.length) b ++ (extendTo a b.length).drop b.length

/-- `MetricsCollection.Merge` (metrics.go lines 137-162): per-library
counters are added (a library missing from the receiver is copied),
high-coverage intervals are appended, and each histogram row is merged
with `mergeRow`. -/
def Merge (mc other : MetricsCollection) : MetricsCollection :=
  ⟨mc.maxAlignDist,
   (List.range mc.OpticalDistance.length).map fun i =>
     mergeRow (mc.OpticalDistance.getD i []) (other.OpticalDistance.getD i []),
   fun library =>
     match mc.LibraryMetrics library, other.LibraryMetrics library with
     | some existing, some otherMetrics => some (existing.add otherMetrics)
     | some existing, none => some existing
     | none, some otherMetrics => some otherMetrics
     | none, none => none,
   mc.HighCoverageIntervals ++ other.HighCoverageIntervals⟩

/-- Specification-side view of one histogram cell; absent cells read 0. -/
def histCell (hist : List (List Int)) (i e : Nat) : Int :=
  (hist.getD i []).getD e 0

/-- The row selected by the bag-size ranges of claim C5:
`≤ 2` is row 0, `3-4` row 1, `5-7` row 2, `≥ 8` row 3. -/
def bagSizeRow (bagSize : Int) : Nat :=
  if bagSize ≤ 2 then 0 else if bagSize ≤ 4 then 1 else if bagSize ≤ 7 then 2 else 3

/-- The per-library counters a collection carries for a library, a missing
library reading as all-zero counters. -/
def metricsAt (mc : MetricsCollection) (library : String) : Metrics :=
  (mc.LibraryMetrics library).getD Metrics.zero

/-- The numeric columns `writeHighCoverageIntervals` (metrics.go lines
221-254) prints for one interval: the start column `interval.start+1` and
the end column `interval.end+1` (the chromosome-name columns repeat the
reference name and are not modelled). -/
def writeIntervalCols (interval : coverageInterval) : Nat × Nat × Rat :=
  (interval.start + 1, interval.stop + 1, interval.meanCoverage)

/-! ## Option validation (validate.go) -/

/-- Output container formats, modelling `bamprovider.FileType`. -/
inductive FileType where
  | BAM
  | PAM
  | Unknown
deriving DecidableEq

/-- Models the external `bamprovider.ParseFileType`: per the spec the output
container is "bam" or an equivalent ("pam"); any other string is `Unknown`. -/
def ParseFileType (format : String) : FileType :=
  if format = "bam" then FileType.BAM
  else if format = "pam" then FileType.PAM
  else FileType.Unknown

/-- The fields of `Opts` that `validate` reads or writes, together with the
output-path fields, so the frame property is meaningful. -/
structure Opts where
  BamFile : String
  IndexFile : String
  MetricsFile : String
  HighCoverageIntervalFile : String
  OpticalHistogram : String
  OutputPath : String
  Format : String
  ShardSize : Int
  Padding : Int
  MinBases : Int
  UmiFile : String
  UseUmis : Bool
  ScavengeUmis : Int
  CoverageMax : Int
  Seed : Int
deriving DecidableEq

/-- The checks of `validate` that follow the `IndexFile` default assignment
(validate.go lines 41-53), applied to the possibly-updated options value. -/
def validateLate (opts1 : Opts) : Option String × Opts :=
  if 0 < opts1.UmiFile.length ∧ opts1.UseUmis = false then
    (some "umi-file is set, but use-umis is false", opts1)
  else if -1 < opts1.ScavengeUmis ∧ opts1.UseUmis = false then
    (some "scavenge-umis is set, but use-umis is false", opts1)
  else if -1 < opts1.ScavengeUmis ∧ opts1.UmiFile = "" then
    (some "scavenge-umis is set, but umi-file is empty", opts1)
  else if ParseFileType opts1.Format = FileType.Unknown then
    (some "unknown outputformat", opts1)
  else (none, opts1)

/-- `validate` (validate.go lines 22-54).  The Go function mutates `opts`
through a pointer and returns an `error`; here it returns the error message
(if any) together with the final value of `opts`. -/
def validate (opts : Opts) : Option String × Opts :=
  if opts.BamFile = "" then (some "you must specify a bam file with --bam", opts)
  else if opts.ShardSize ≤ 0 then (some "shard-size must be non-zero", opts)
  else if opts.Padding < 0 then (some "padding must be non-negative", opts)
  else if opts.ShardSize ≤ opts.Padding then (some "padding must be less than shard-size", opts)
  else if opts.MinBases ≤ 0 then (some "min-bases should be positive", opts)
  else validateLate (if opts.IndexFile = ""
    then { opts with IndexFile := opts.BamFile ++ ".bai" } else opts)

/-- The invalid-option condition list exactly as claim C3 states it. -/
def claimedInvalidOpts (opts : Opts) : Prop :=
  opts.ShardSize ≤ 0 ∨ opts.Padding < 0 ∨ opts.Padding ≥ opts.ShardSize ∨
  opts.MinBases ≤ 0 ∨ ParseFileType opts.Format = FileType.Unknown ∨
  ((opts.UmiFile ≠ "" ∨ opts.ScavengeUmis > -1) ∧ opts.UseUmis = false) ∨
  (opts.ScavengeUmis > -1 ∧ opts.UmiFile = "")

instance (opts : Opts) : Decidable (claimedInvalidOpts opts) := by
  unfold claimedInvalidOpts; infer_instance

/-- The checks of `validate` that precede the `IndexFile` default
assignment. -/
def earlyChecksPass (opts : Opts) : Prop :=
  opts.BamFile ≠ "" ∧ 0 < opts.ShardSize ∧ 0 ≤ opts.Padding ∧
  opts.Padding < opts.ShardSize ∧ 0 < opts.MinBases

instance (opts : Opts) : Decidable (earlyChecksPass opts) := by
  unfold earlyChecksPass; infer_instance

/-! ## Duplicate keys and orientations (duplicate_key.go) -/

/-- `Orientation` is a `uint8` in the source; its values are the six `iota`
constants below, so `Nat` suffices. -/
abbrev Orientation := Nat

/-- Forward, single fragment. -/
def f : Orientation := 0

/-- Reverse, single fragment. -/
def r : Orientation := 1

/-- Forward, Forward. -/
def ff : Orientation := 2

/-- Forward, Reverse. -/
def fr : Orientation := 3

/-- Reverse, Forward. -/
def rf : Orientation := 4

/-- Reverse, Reverse. -/
def rr : Orientation := 5

/-- The `strand` type is defined in a source file outside this verification's
scope; only its value is carried around here. -/
abbrev strand := Nat

/-- `duplicateKey`: the unique key of a group of duplicates. -/
structure duplicateKey where
  leftRefId : Int
  leftPos : Int
  rightRefId : Int
  rightPos : Int
  Orientation : Orientation
  Strand : strand
deriving DecidableEq

/-- `duplicateKey.isSingle`: the key covers a single read. -/
def duplicateKey.isSingle (k : duplicateKey) : Bool :=
  k.Orientation == f || k.Orientation == r

/-- `orientationByteSingle`. -/
def orientationByteSingle (reversed : Bool) : Orientation :=
  if reversed then r else f

/-- `leftOrientation`.  On a single-fragment orientation the Go code calls
`log.Fatal` (aborting the process) and then nominally returns `r`; the value
of that unreachable branch is kept as written. -/
def leftOrientation (o : Orientation) : Orientation :=
  if o = f ∨ o = r then r
  else if o = ff ∨ o = fr then f
  else r

/-- `rightOrientation`, with the same treatment of the fatal branch. -/
def rightOrientation (o : Orientation) : Orientation :=
  if o = f ∨ o = r then r
  else if o = ff ∨ o = rf then f
  else r

/-- `orientationBytePair`. -/
def orientationBytePair (leftReversed rightReversed : Bool) : Orientation :=
  if leftReversed then
    (if rightReversed then rr else rf)
  else
    (if rightReversed then fr else ff)

/-! ## The coverage calculator (highcoverage.go lines 23-64) -/

/-- One CIGAR operation, reduced to what `Process` reads of it: its length
and whether its type consumes reference positions. -/
structure CigarOp where
  consumesRef : Bool
  len : Nat
deriving DecidableEq

/-- A mapped record, reduced to what `Process` reads of it: reference id and
length, 5-prime position and CIGAR. -/
structure SamRecord where
  refId : Nat
  refLen : Nat
  pos : Nat
  cigar : List CigarOp
deriving DecidableEq

/-- `r.End() - r.Start()`, the record's alignment length on the reference:
the total length of its reference-consuming CIGAR operations (models the
`hts/sam` record contract). -/
def SamRecord.alnLen (rec : SamRecord) : Nat :=
  (rec.cigar.map fun co => if co.consumesRef then co.len else 0).sum

/-- `r.End()`: one past the last reference position of the alignment. -/
def SamRecord.endPos (rec : SamRecord) : Nat := rec.pos + rec.alnLen

/-- A shard's owned coordinate range, a half-open interval in the global
`(refId, position)` order (models `bam.Shard` with padding 0, as `Process`
always passes padding 0). -/
structure Shard where
  startRefId : Nat
  startPos : Nat
  endRefId : Nat
  endPos : Nat
deriving DecidableEq

/-- Weak order on genomic coordinates `(refId, position)`. -/
def coordLe (a b : Nat × Nat) : Prop :=
  a.1 < b.1 ∨ (a.1 = b.1 ∧ a.2 ≤ b.2)

instance (a b : Nat × Nat) : Decidable (coordLe a b) := by
  unfold coordLe; infer_instance

/-- Strict order on genomic coordinates `(refId, position)`. -/
def coordLt (a b : Nat × Nat) : Prop :=
  a.1 < b.1 ∨ (a.1 = b.1 ∧ a.2 < b.2)

instance (a b : Nat × Nat) : Decidable (coordLt a b) := by
  unfold coordLt; infer_instance

/-- `shard.CoordInShard(0, coord)`: the shard owns the coordinate. -/
def Shard.CoordInShard (shard : Shard) (refId p : Nat) : Prop :=
  coordLe (shard.startRefId, shard.startPos) (refId, p) ∧
  coordLt (refId, p) (shard.endRefId, shard.endPos)

instance (shard : Shard) (refId p : Nat) : Decidable (shard.CoordInShard refId p) := by
  unfold Shard.CoordInShard; infer_instance

/-- The coverage counters `*coverageCounts`, as a total function so that the
claim can speak about every cell. -/
abbrev Cov := Nat → Nat → Int

/-- `(*m.coverageCounts)[refId][p]++`. -/
def bumpCov (counts : Cov) (refId p : Nat) : Cov :=
  fun refId1 p1 => if refId1 = refId ∧ p1 = p then counts refId1 p1 + 1 else counts refId1 p1

/-- The first loop of `Process`: the number of leading positions of the
record's span that the shard does not own (stopping at the first owned
position). -/
def basesPreShard (shard : Shard) (rec : SamRecord) : Nat :=
  ((List.range' rec.pos rec.alnLen).takeWhile
    fun p => ! decide (shard.CoordInShard rec.refId p)).length

/-- The second loop of `Process`: `r.Len()` minus the number of trailing
positions of the record's span that the shard does not own. -/
def basesInShard (shard : Shard) (rec : SamRecord) : Nat :=
  rec.alnLen - ((List.range' rec.pos rec.alnLen).reverse.takeWhile
    fun p => ! decide (shard.CoordInShard rec.refId p)).length

/-- The inner loop of `Process` over one reference-consuming CIGAR
operation: state is `(counted, offset, counts)`, the loop condition is
checked before every iteration, `offset` advances every iteration, and the
counter at `pos+offset` is incremented when `offset >= basesPreShard`. -/
def incOp (shard : Shard) (rec : SamRecord) (inS pre : Nat) :
    Nat → Nat × Nat × Cov → Nat × Nat × Cov
  | 0, st => st
  | i + 1, (counted, offset, counts) =>
      if counted < inS ∧ rec.pos + offset < rec.refLen then
        (if pre ≤ offset then
          incOp shard rec inS pre i (counted + 1, offset + 1, bumpCov counts rec.refId (rec.pos + offset))
        else
          incOp shard rec inS pre i (counted, offset + 1, counts))
      else (counted, offset, counts)

/-- `coverageCalculator.Process` (highcoverage.go lines 23-64), acting on
the coverage counters. -/
def Process (shard : Shard) (rec : SamRecord) (counts : Cov) : Cov :=
  let pre := basesPreShard shard rec
  if rec.alnLen ≤ pre then counts
  else
    (rec.cigar.foldl
      (fun st co => if co.consumesRef then incOp shard rec (basesInShard shard rec) pre co.len st else st)
      (0, 0, counts)).2.2

/-! ## Claims C2, C3, C4, C7, C8, C9, C10 -/

/-- C2 counterexample: for the high-coverage interval `[5, 9)` the line
writer emits `10 = 9 + 1` as the end column, not `9` as the claim states
(the 1-based position of the last covered base would be `9`). -/
theorem C2_counterexample_end_column :
    (writeIntervalCols ⟨0, 5, 9, 2⟩).2.1 = 10 ∧ ¬ (writeIntervalCols ⟨0, 5, 9, 2⟩).2.1 = 9 := by
  decide

/-- C2 (amended): for every high-coverage interval the emitted start column
is `start + 1` and the emitted end column is `end + 1` - both 0-based
positions are uniformly converted by adding one, so the end column is one
past the 1-based position of the last covered base. -/
theorem C2_write_cols_add_one (interval : coverageInterval) :
    (writeIntervalCols interval).1 = interval.start + 1 ∧
    (writeIntervalCols interval).2.1 = interval.stop + 1 ∧
    (writeIntervalCols interval).2.2 = interval.meanCoverage :=
  ⟨rfl, rfl, rfl⟩

/-- C3 counterexample: an `Opts` value with an empty `BamFile` and every
condition of the claim's invalid-option list false is rejected by
`validate`, so the claimed "if and only if" fails. -/
theorem C3_counterexample_empty_bam :
    ((validate ⟨"", "idx", "m", "h", "o", "out", "bam", 1, 0, 1, "", false, -1, 0, 0⟩).1).isSome = true ∧
    ¬ claimedInvalidOpts ⟨"", "idx", "m", "h", "o", "out", "bam", 1, 0, 1, "", false, -1, 0, 0⟩ := by
  decide

lemma string_length_eq_zero_iff (s : String) : s.length = 0 ↔ s = "" := by
  constructor
  · intro h
    cases s with
    | mk data =>
        have hd : data = [] := List.length_eq_zero.mp h
        rw [hd]
  · intro h
    rw [h]
    rfl

lemma string_length_pos_iff (s : String) : 0 < s.length ↔ s ≠ "" := by
  rw [Nat.pos_iff_ne_zero]
  exact not_congr (string_length_eq_zero_iff s)

/-- C4: the metrics row halves the three read-pair counts with truncating
integer division and emits the four per-read counts unhalved. -/
theorem C4_metrics_row_halves_pair_counts (est : LibrarySizeSolver) (m : Metrics) :
    (m.render est).readPairsExaminedCol = m.ReadPairsExamined.tdiv 2 ∧
    (m.render est).readPairDupsCol = m.ReadPairDups.tdiv 2 ∧
    (m.render est).readPairOpticalDupsCol = m.ReadPairOpticalDups.tdiv 2 ∧
    (m.render est).unpairedReadsCol = m.UnpairedReads ∧
    (m.render est).secondarySupplementaryCol = m.SecondarySupplementary ∧
    (m.render est).unmappedReadsCol = m.UnmappedReads ∧
    (m.render est).unpairedDupsCol = m.UnpairedDups :=
  ⟨rfl, rfl, rfl, rfl, rfl, rfl, rfl⟩

/-- C3 (amended): `validate` returns an error exactly when the bam file is
unset or one of the invalid-option conditions the claim lists holds; the
claim's list must be extended with the empty-`BamFile` check, which the code
performs first. -/
theorem C3_validate_error_iff (opts : Opts) :
    ((validate opts).1).isSome = true ↔ (opts.BamFile = "" ∨ claimedInvalidOpts opts) := by
  have hlate : ∀ o : Opts, ((validateLate o).1).isSome = true ↔
      (((o.UmiFile ≠ "" ∨ -1 < o.ScavengeUmis) ∧ o.UseUmis = false) ∨
       (-1 < o.ScavengeUmis ∧ o.UmiFile = "") ∨
       ParseFileType o.Format = FileType.Unknown) := by
    intro o
    unfold validateLate
    split_ifs <;> simp_all [string_length_pos_iff] <;> tauto
  unfold validate
  split_ifs <;> simp_all [claimedInvalidOpts, hlate] <;>
    (constructor
     · intro hc
       tauto
     · intro hc
       rcases hc with hc | hc | hc | hc | hc
       · omega
       · omega
       · omega
       · omega
       · tauto)

/-- C9: `validate` mutates at most `IndexFile`, which becomes
`BamFile ++ ".bai"` exactly when it was empty and the checks preceding the
assignment passed; every other field survives unchanged whether `validate`
succeeds or fails. -/
theorem C9_validate_mutates_only_IndexFile (opts : Opts) :
    (validate opts).2.IndexFile =
      (if opts.IndexFile = "" ∧ earlyChecksPass opts then opts.BamFile ++ ".bai"
       else opts.IndexFile) ∧
    (validate opts).2.BamFile = opts.BamFile ∧
    (validate opts).2.MetricsFile = opts.MetricsFile ∧
    (validate opts).2.HighCoverageIntervalFile = opts.HighCoverageIntervalFile ∧
    (validate opts).2.OpticalHistogram = opts.OpticalHistogram ∧
    (validate opts).2.OutputPath = opts.OutputPath ∧
    (validate opts).2.Format = opts.Format ∧
    (validate opts).2.ShardSize = opts.ShardSize ∧
    (validate opts).2.Padding = opts.Padding ∧
    (validate opts).2.MinBases = opts.MinBases ∧
    (validate opts).2.UmiFile = opts.UmiFile ∧
    (validate opts).2.UseUmis = opts.UseUmis ∧
    (validate opts).2.ScavengeUmis = opts.ScavengeUmis ∧
    (validate opts).2.CoverageMax = opts.CoverageMax ∧
    (validate opts).2.Seed = opts.Seed := by
  have hlate : ∀ o : Opts, (validateLate o).2 = o := by
    intro o
    unfold validateLate
    split_ifs <;> rfl
  unfold validate
  split_ifs <;> simp_all [earlyChecksPass, hlate] <;> (exfalso; omega)

/-- C7: whatever the library-size solver does on the row's derived pair
counts, the row is complete; when the solver fails the estimated-library-size
column is the string "0", and when it succeeds the column shows the returned
value. -/
theorem C7_library_size_error_emits_zero (est : LibrarySizeSolver) (m : Metrics) :
    ((∃ msg, est m.pairsA m.pairsB = Except.error msg) →
      (m.render est).estimatedLibrarySizeCol = "0") ∧
    (∀ librarySize, est m.pairsA m.pairsB = Except.ok librarySize →
      (m.render est).estimatedLibrarySizeCol = toString librarySize) := by
  constructor
  · rintro ⟨msg, hmsg⟩
    show (match est m.pairsA m.pairsB with
      | Except.ok librarySize => toString librarySize
      | Except.error _ => "0") = "0"
    rw [hmsg]
  · intro librarySize hok
    show (match est m.pairsA m.pairsB with
      | Except.ok v => toString v
      | Except.error _ => "0") = toString librarySize
    rw [hok]

/-- C8: at the concrete input below the coverage calculator increments the
counter at position 2, which the shard does not own (the shard owns exactly
position 1 of reference 0, while the record spans positions 0-2 with a
single 3-long reference-consuming operation and `refLen` 10), contradicting
the claim that only shard-owned positions are incremented. -/
theorem C8_code_increments_unowned_position :
    Process ⟨0, 1, 0, 2⟩ ⟨0, 10, 0, [⟨true, 3⟩]⟩ (fun _ _ => 0) 0 2 = 1 ∧
    ¬ Shard.CoordInShard ⟨0, 1, 0, 2⟩ 0 2 ∧
    Process ⟨0, 1, 0, 2⟩ ⟨0, 10, 0, [⟨true, 3⟩]⟩ (fun _ _ => 0) 0 1 = 1 ∧
    Shard.CoordInShard ⟨0, 1, 0, 2⟩ 0 1 := by
  refine ⟨rfl, by decide, rfl, by decide⟩

/-- C10: pair orientations decompose into the orientations of their sides,
`orientationBytePair` never yields a single-fragment orientation (so a key
built from it is never single), and a key is single exactly when its
orientation is `f` or `r`. -/
theorem C10_orientation_round_trip (leftReversed rightReversed : Bool)
    (a b c d : Int) (s0 : strand) (o : Orientation) :
    leftOrientation (orientationBytePair leftReversed rightReversed) =
      orientationByteSingle leftReversed ∧
    rightOrientation (orientationBytePair leftReversed rightReversed) =
      orientationByteSingle rightReversed ∧
    orientationBytePair leftReversed rightReversed ≠ f ∧
    orientationBytePair leftReversed rightReversed ≠ r ∧
    duplicateKey.isSingle
      ⟨a, b, c, d, orientationBytePair leftReversed rightReversed, s0⟩ = false ∧
    (duplicateKey.isSingle ⟨a, b, c, d, o, s0⟩ = true ↔ (o = f ∨ o = r)) := by
  refine ⟨?_, ?_, ?_, ?_, ?_, ?_⟩
  · cases leftReversed <;> cases rightReversed <;> decide
  · cases leftReversed <;> cases rightReversed <;> decide
  · cases leftReversed <;> cases rightReversed <;> decide
  · cases leftReversed <;> cases rightReversed <;> decide
  · show (orientationBytePair leftReversed rightReversed == f ||
      orientationBytePair leftReversed rightReversed == r) = false
    cases leftReversed <;> cases rightReversed <;> decide
  · show (o == f || o == r) = true ↔ (o = f ∨ o = r)
    simp

/-! ## Claims C5 and C6: histogram and merge lemmas -/

lemma getD_append_replicate (a : List Int) (k j : Nat) :
    (a ++ List.replicate k 0).getD j 0 = a.getD j 0 := by
  rw [List.getD_eq_getElem?_getD, List.getD_eq_getElem?_getD, List.getElem?_append]
  split
  · rfl
  · rw [List.getElem?_replicate, List.getElem?_eq_none (by omega)]
    split <;> rfl

lemma resizeRow_length (n : Nat) (row : List Int) : (resizeRow n row).length = n := by
  unfold resizeRow
  rw [List.length_append, List.length_take, List.length_replicate]
  omega

lemma resizeRow_getD (n : Nat) (row : List Int) (h : row.length ≤ n) (j : Nat) :
    (resizeRow n row).getD j 0 = row.getD j 0 := by
  unfold resizeRow
  rw [List.take_of_length_le h]
  exact getD_append_replicate row _ j

lemma getD_mem {l : List (List Int)} {i : Nat} (h : i < l.length) : l.getD i [] ∈ l := by
  rw [List.getD_eq_getElem l [] h]
  exact List.getElem_mem h

lemma getD_of_ge {l : List (List Int)} {i : Nat} (h : l.length ≤ i) : l.getD i [] = [] := by
  rw [List.getD_eq_getElem?_getD, List.getElem?_eq_none h]
  rfl

lemma getD_map_resize (hist : List (List Int)) (n i : Nat) (h : i < hist.length) :
    (hist.map (resizeRow n)).getD i [] = resizeRow n (hist.getD i []) := by
  rw [List.getD_eq_getElem (hist.map (resizeRow n)) [] (by simpa using h),
    List.getElem_map, List.getD_eq_getElem hist [] h]

lemma histCell_bumpCell (hist : List (List Int)) (i d : Nat) (hi : i < hist.length)
    (hd : d < (hist.getD i []).length) (i1 e1 : Nat) :
    histCell (bumpCell hist i d) i1 e1 =
      histCell hist i1 e1 + (if i1 = i ∧ e1 = d then 1 else 0) := by
  unfold histCell bumpCell
  by_cases hii : i1 = i
  · subst hii
    have hrow : (hist.set i1 ((hist.getD i1 []).set d ((hist.getD i1 []).getD d 0 + 1))).getD i1 [] =
        (hist.getD i1 []).set d ((hist.getD i1 []).getD d 0 + 1) := by
      rw [List.getD_eq_getElem?_getD, List.getElem?_set_self hi]
      rfl
    rw [hrow]
    by_cases hee : e1 = d
    · subst hee
      rw [List.getD_eq_getElem?_getD, List.getElem?_set_self hd, if_pos ⟨rfl, rfl⟩]
      rfl
    · rw [List.getD_eq_getElem?_getD, List.getElem?_set_ne (fun hc => hee hc.symm),
        if_neg (fun hc => hee hc.2), ← List.getD_eq_getElem?_getD, add_zero]
  · have hrow : (hist.set i ((hist.getD i []).set d ((hist.getD i []).getD d 0 + 1))).getD i1 [] =
        hist.getD i1 [] := by
      rw [List.getD_eq_getElem?_getD, List.getElem?_set_ne (fun hc => hii hc.symm),
        ← List.getD_eq_getElem?_getD]
    rw [hrow, if_neg (fun hc => hii hc.1), add_zero]

lemma bumpCell_length (hist : List (List Int)) (i d : Nat) :
    (bumpCell hist i d).length = hist.length := by
  unfold bumpCell
  exact List.length_set hist _ _

/-- C5: `AddDistance` increments exactly the histogram cell at the row
selected by the bag-size range and the column `distance`, leaving every
other cell's value unchanged; when `distance` reaches past the current row
length every row is first grown to length `distance + 1`, and otherwise the
row lengths are kept. -/
theorem C5_AddDistance_single_cell (hist : List (List Int)) (bagSize : Int) (distance : Nat)
    (L : Nat) (hlen : hist.length = 4) (hrows : ∀ row ∈ hist, row.length = L) :
    (∀ i e, histCell (AddDistance hist bagSize distance) i e =
        histCell hist i e + (if i = bagSizeRow bagSize ∧ e = distance then 1 else 0)) ∧
    (AddDistance hist bagSize distance).length = 4 ∧
    (∀ row ∈ AddDistance hist bagSize distance,
      row.length = (if L ≤ distance then distance + 1 else L)) := by
  have hrow0len : (hist.getD 0 []).length = L := hrows _ (getD_mem (by omega))
  have hG_cells : ∀ i e, histCell (growIfNeeded hist distance) i e = histCell hist i e := by
    intro i e
    unfold growIfNeeded
    split
    · unfold histCell
      rcases Nat.lt_or_ge i hist.length with hi | hi
      · rw [getD_map_resize hist (distance + 1) i hi,
          resizeRow_getD _ _ (by rw [hrows _ (getD_mem hi)]; omega) e]
      · rw [getD_of_ge (by simpa using hi), getD_of_ge hi]
    · rfl
  have hG_len : (growIfNeeded hist distance).length = 4 := by
    unfold growIfNeeded
    split
    · rw [List.length_map]; exact hlen
    · exact hlen
  have hG_rows : ∀ row ∈ growIfNeeded hist distance,
      row.length = (if L ≤ distance then distance + 1 else L) := by
    intro row hr
    unfold growIfNeeded at hr
    rw [hrow0len] at hr
    by_cases hLd : L ≤ distance
    · rw [if_pos hLd] at hr ⊢
      rw [List.mem_map] at hr
      obtain ⟨row0, -, hre⟩ := hr
      rw [← hre, resizeRow_length]
    · rw [if_neg hLd] at hr ⊢
      exact hrows row hr
  have hG_row_len : ∀ i, i < 4 → distance < ((growIfNeeded hist distance).getD i []).length := by
    intro i hi
    rw [hG_rows _ (getD_mem (by omega))]
    split <;> omega
  have hunf : AddDistance hist bagSize distance =
      bumpCell (growIfNeeded hist distance) (bagSizeRow bagSize) distance := by
    unfold AddDistance bagSizeRow
    split_ifs <;> first | rfl | omega
  have hbr_lt : bagSizeRow bagSize < 4 := by
    unfold bagSizeRow
    split_ifs <;> omega
  refine ⟨?_, ?_, ?_⟩
  · intro i e
    rw [hunf,
      histCell_bumpCell (growIfNeeded hist distance) (bagSizeRow bagSize) distance
        (by omega) (hG_row_len _ hbr_lt) i e,
      hG_cells]
  · rw [hunf, bumpCell_length]
    exact hG_len
  · intro row hr
    rw [hunf] at hr
    unfold bumpCell at hr
    rw [List.mem_iff_getElem] at hr
    obtain ⟨j, hj, hje⟩ := hr
    rw [List.getElem_set] at hje
    by_cases hjb : bagSizeRow bagSize = j
    · rw [if_pos hjb] at hje
      rw [← hje, List.length_set]
      exact hG_rows _ (getD_mem (by omega))
    · rw [if_neg hjb] at hje
      refine hG_rows row ?_
      rw [← hje]
      exact List.getElem_mem _

/-- Concrete witness for C5: for the all-zero 4-row histogram with rows of
length 1, bag size 3 and distance 2, exactly the cell in row 1 at column 2
is incremented, the others stay 0, and the rows are grown to length 3. -/
theorem C5_AddDistance_single_cell_witness :
    histCell (AddDistance [[0], [0], [0], [0]] 3 2) 1 2 = 1 ∧
    histCell (AddDistance [[0], [0], [0], [0]] 3 2) 0 2 = 0 ∧
    (AddDistance [[0], [0], [0], [0]] 3 2).length = 4 := by
  have h := C5_AddDistance_single_cell [[0], [0], [0], [0]] 3 2 1 (by decide) (by decide)
  refine ⟨?_, ?_, h.2.1⟩
  · rw [h.1 1 2]
    decide
  · rw [h.1 0 2]
    decide

lemma extendTo_length (a : List Int) (n : Nat) : (extendTo a n).length = max a.length n := by
  unfold extendTo
  split
  · rw [List.length_append, List.length_replicate]
    omega
  · omega

lemma extendTo_getD (a : List Int) (n j : Nat) : (extendTo a n).getD j 0 = a.getD j 0 := by
  unfold extendTo
  split
  · exact getD_append_replicate a _ j
  · rfl

lemma mergeRow_length (a b : List Int) : (mergeRow a b).length = max a.length b.length := by
  unfold mergeRow
  rw [List.length_append, List.length_zipWith, List.length_drop, extendTo_length]
  omega

lemma mergeRow_getD (a b : List Int) (j : Nat) :
    (mergeRow a b).getD j 0 = a.getD j 0 + b.getD j 0 := by
  have hble : b.length ≤ (extendTo a b.length).length := by
    rw [extendTo_length]; omega
  unfold mergeRow
  rcases Nat.lt_or_ge j b.length with hj | hj
  · have hjz : j < (List.zipWith (fun x y => x + y) (extendTo a b.length) b).length := by
      rw [List.length_zipWith]; omega
    rw [List.getD_eq_getElem _ 0 (by rw [List.length_append]; omega),
      List.getElem_append_left hjz, List.getElem_zipWith]
    rw [← List.getD_eq_getElem (extendTo a b.length) 0 (by omega),
      ← List.getD_eq_getElem b 0 hj, extendTo_getD]
  · rw [List.getD_eq_getElem?_getD, List.getElem?_append,
      if_neg (by rw [List.length_zipWith]; omega)]
    have hlen : (List.zipWith (fun x y => x + y) (extendTo a b.length) b).length = b.length := by
      rw [List.length_zipWith]; omega
    rw [hlen, List.getElem?_drop]
    have hbj : b.getD j 0 = 0 := by
      rw [List.getD_eq_getElem?_getD, List.getElem?_eq_none hj]
      rfl
    rw [hbj, add_zero]
    have harith : b.length + (j - b.length) = j := by omega
    rw [harith, ← List.getD_eq_getElem?_getD, extendTo_getD]

lemma rangeMap_getD (n : Nat) (g : Nat → List Int) (i : Nat) (h : i < n) :
    ((List.range n).map g).getD i [] = g i := by
  rw [List.getD_eq_getElem _ [] (by simpa using h), List.getElem_map, List.getElem_range]

lemma Metrics.add_zero_right (m : Metrics) : m.add Metrics.zero = m := by
  cases m
  simp [Metrics.add, Metrics.zero]

lemma Metrics.add_zero_left (m : Metrics) : Metrics.zero.add m = m := by
  cases m
  simp [Metrics.add, Metrics.zero]

/-- C6: after `Merge`, every library's counters are the fieldwise sum of the
two collections' counters (a missing library counting as zero, and a library
is present afterwards exactly when it was present in either input), each of
the four histogram rows has the length of the longer input row and holds the
elementwise sum of the input rows (missing entries as 0), and the
high-coverage interval list is the receiver's list with the other's
appended. -/
theorem C6_Merge_sums (mc other : MetricsCollection)
    (hmc : mc.OpticalDistance.length = 4) (hother : other.OpticalDistance.length = 4) :
    (∀ library,
      metricsAt (Merge mc other) library =
        (metricsAt mc library).add (metricsAt other library) ∧
      ((Merge mc other).LibraryMetrics library).isSome =
        ((mc.LibraryMetrics library).isSome || (other.LibraryMetrics library).isSome)) ∧
    ((Merge mc other).OpticalDistance.length = 4 ∧
      (∀ i, i < 4 →
        ((Merge mc other).OpticalDistance.getD i []).length =
          max (mc.OpticalDistance.getD i []).length (other.OpticalDistance.getD i []).length ∧
        (∀ j, ((Merge mc other).OpticalDistance.getD i []).getD j 0 =
          (mc.OpticalDistance.getD i []).getD j 0 +
            (other.OpticalDistance.getD i []).getD j 0))) ∧
    (Merge mc other).HighCoverageIntervals =
      mc.HighCoverageIntervals ++ other.HighCoverageIntervals := by
  refine ⟨?_, ⟨?_, ?_⟩, rfl⟩
  · intro library
    unfold Merge metricsAt
    rcases h1 : mc.LibraryMetrics library with - | a <;>
      rcases h2 : other.LibraryMetrics library with - | b <;>
      simp [h1, h2, Metrics.add_zero_right, Metrics.add_zero_left]
  · show ((List.range mc.OpticalDistance.length).map _).length = 4
    rw [List.length_map, List.length_range]
    exact hmc
  · intro i hi
    have hgd : (Merge mc other).OpticalDistance.getD i [] =
        mergeRow (mc.OpticalDistance.getD i []) (other.OpticalDistance.getD i []) := by
      show ((List.range mc.OpticalDistance.length).map _).getD i [] = _
      exact rangeMap_getD mc.OpticalDistance.length _ i (by omega)
    rw [hgd]
    exact ⟨mergeRow_length _ _, fun j => mergeRow_getD _ _ j⟩

/-- Concrete witness for C6: merging two four-row collections adds the
histogram rows elementwise at the longer length, sums the per-library
counters, and concatenates the interval lists. -/
theorem C6_Merge_sums_witness :
    ((Merge ⟨0, [[1], [2], [], [0, 5]], fun _ => none, [⟨0, 1, 2, 3⟩]⟩
        ⟨1, [[], [3, 4], [1], [2]], fun _ => none, []⟩).OpticalDistance.getD 1 []).getD 1 0 = 4 ∧
    ((Merge ⟨0, [[1], [2], [], [0, 5]], fun _ => none, [⟨0, 1, 2, 3⟩]⟩
        ⟨1, [[], [3, 4], [1], [2]], fun _ => none, []⟩).OpticalDistance.getD 1 []).length = 2 ∧
    (Merge ⟨0, [[1], [2], [], [0, 5]], fun _ => none, [⟨0, 1, 2, 3⟩]⟩
        ⟨1, [[], [3, 4], [1], [2]], fun _ => none, []⟩).HighCoverageIntervals = [⟨0, 1, 2, 3⟩] := by
  have h := C6_Merge_sums ⟨0, [[1], [2], [], [0, 5]], fun _ => none, [⟨0, 1, 2, 3⟩]⟩
    ⟨1, [[], [3, 4], [1], [2]], fun _ => none, []⟩ rfl rfl
  obtain ⟨-, ⟨-, hrows⟩, hint⟩ := h
  refine ⟨?_, ?_, hint⟩
  · rw [(hrows 1 (by omega)).2 1]
    decide
  · rw [(hrows 1 (by omega)).1]
    decide

end Doppelmark
